import Mathlib

/-!
Shallow embedding of `src/tree/main.go` (a kubectl-tree-like ownership
introspection tool) and proofs about its core algorithms: the resource
catalog (`findAPIs` / `apiNames`), the kind resolver (`overrideType` and
the lookup logic of `run`), the paginated object fetcher (`queryAPI`),
the fleet fetcher (`getAllResources`), and the ownership directory
(`newObjectDirectory`).

Go maps are modelled as total functions with a default value (the zero
value of the Go map read), Go `(value, ok)` returns as `Option`, Go
errors as `Except String`, and `map[UID]bool` sets as `Finset String`.
-/

set_option autoImplicit false

/-- Model of `unstructured.Unstructured` as used by this program: the object's UID
(`obj.GetUID()`) and the UIDs of its owner references
(`obj.GetOwnerReferences()`, of which only the `UID` field is read). -/
structure ObjectRecord where
  uid : String
  ownerRefs : List String
deriving DecidableEq, Repr, Inhabited

/-- Embedding of `objectDirectory` (main.go:121-124): `items` maps UIDs to objects,
`ownership` maps an owner UID to the set of owned UIDs
(`map[types.UID]map[types.UID]bool`). Missing keys read as the Go zero
values `none` and the empty set. -/
structure objectDirectory where
  items : String → Option ObjectRecord
  ownership : String → Finset String

/-- One step of the loop body of `newObjectDirectory` (main.go:132-140):
record the object in `items` and add its UID to the children set of each
of its declared owners. -/
def insertRecord (d : objectDirectory) (obj : ObjectRecord) : objectDirectory :=
  { items := fun k => if k = obj.uid then some obj else d.items k
    ownership := obj.ownerRefs.foldl
      (fun m ref => fun k => if k = ref then insert obj.uid (m k) else m k)
      d.ownership }

/-- Embedding of `newObjectDirectory` (main.go:127-142): build object lookup and
hierarchy in a single pass over all records. -/
def newObjectDirectory (objs : List ObjectRecord) : objectDirectory :=
  objs.foldl insertRecord { items := fun _ => none, ownership := fun _ => ∅ }

/-- The spec's ownership example: A with no owners. -/
def exA : ObjectRecord := ⟨"A", []⟩

/-- The spec's ownership example: B owned by A. -/
def exB : ObjectRecord := ⟨"B", ["A"]⟩

/-- The spec's ownership example: C owned by A. -/
def exC : ObjectRecord := ⟨"C", ["A"]⟩

/-- The spec's ownership example: D owned by B. -/
def exD : ObjectRecord := ⟨"D", ["B"]⟩

/-- The spec's ownership example in one insertion order. -/
def exObjs : List ObjectRecord := [exA, exB, exC, exD]

/-- The spec's ownership example in the reversed insertion order. -/
def exObjs2 : List ObjectRecord := [exD, exC, exB, exA]

/-- ASCII model of Go's `strings.ToLower`: lower-case every character. -/
def goToLower (s : String) : String := String.mk (s.data.map Char.toLower)

/-- Model of `metav1.APIResource` as used by this program: resource (plural) name,
singular name, namespaced flag, kind, supported verbs and short names. -/
structure APIResource where
  name : String
  singularName : String
  namespaced : Bool
  kind : String
  verbs : List String
  shortNames : List String
deriving DecidableEq, Repr, Inhabited

/-- Model of `schema.GroupVersion`. -/
structure GroupVersion where
  group : String
  version : String
deriving DecidableEq, Repr, Inhabited

/-- Embedding of `apiResource` (main.go:199-202): a discovered resource descriptor with
its group/version. -/
structure apiResource where
  r : APIResource
  gv : GroupVersion
deriving DecidableEq, Repr, Inhabited

/-- Model of `schema.GroupVersionResource`. -/
structure GroupVersionResource where
  group : String
  version : String
  resource : String
deriving DecidableEq, Repr, Inhabited

/-- Embedding of `apiResource.GroupVersionResource` (main.go:204-210). -/
def apiResource.GroupVersionResource (a : apiResource) : GroupVersionResource :=
  { group := a.gv.group, version := a.gv.version, resource := a.r.name }

/-- Model of `schema.GroupVersionResource.String()` from the collaborating
apimachinery library: `Group + "/" + Version + ", Resource=" + Resource`. -/
def gvrString (g : GroupVersionResource) : String :=
  g.group ++ "/" ++ g.version ++ ", Resource=" ++ g.resource

/-- Embedding of `fullAPIName` (main.go:225-228): render a resource type as
`resource.version.group`. -/
def fullAPIName (a : apiResource) : String :=
  String.intercalate "." [a.GroupVersionResource.resource,
    a.GroupVersionResource.version, a.GroupVersionResource.group]

/-- Embedding of `contains` (main.go:263-270): linear search for a string in a slice. -/
def contains : List String → String → Bool
  | [], _ => false
  | vv :: rest, s => if vv = s then true else contains rest s

/-- Embedding of `apiNames` (main.go:273-292): all names that could refer to an
`APIResource` — for each of singular (declared, or lower-cased kind when
empty), plural and every short name, the bare name, `name.group` and
`name.version.group`. -/
def apiNames (a : APIResource) (gv : GroupVersion) : List String :=
  let singularName := if a.singularName = "" then goToLower a.kind else a.singularName
  let pluralName := a.name
  let names := [singularName, pluralName] ++ a.shortNames
  names.foldl (fun out n =>
    out ++ [n, String.intercalate "." [n, gv.group],
      String.intercalate "." [n, gv.version, gv.group]]) []

/-- Embedding of `resourceMap` (main.go:212-217): the full list of discovered resource
types plus the alias index `m : resourceNameLookup`, a Go map read with
default `[]`. -/
structure resourceMap where
  list : List apiResource
  m : String → List apiResource

/-- Embedding of `resourceMap.lookup` (main.go:219-221): index lookup of the lower-cased
query. -/
def resourceMap.lookup (rm : resourceMap) (s : String) : List apiResource :=
  rm.m (goToLower s)

/-- Embedding of `resourceMap.resources` (main.go:223). -/
def resourceMap.resources (rm : resourceMap) : List apiResource := rm.list

/-- One element of the discovery response (`metav1.APIResourceList`): the
raw group/version string and its resource descriptors. -/
structure APIResourceList where
  groupVersion : String
  apiResources : List APIResource
deriving DecidableEq, Repr, Inhabited

/-- Model of `schema.ParseGroupVersion` from the collaborating apimachinery
library: empty or `"/"` parses to the empty GroupVersion; no slash means a
legacy bare version; exactly one slash splits into group and version; more
slashes fail. -/
def parseGroupVersion (gv : String) : Except String GroupVersion :=
  if gv = "" ∨ gv = "/" then .ok { group := "", version := "" }
  else if gv.data.count '/' = 0 then .ok { group := "", version := gv }
  else if gv.data.count '/' = 1 then
    .ok { group := String.mk (gv.data.takeWhile (fun c => c != '/')),
          version := String.mk ((gv.data.dropWhile (fun c => c != '/')).drop 1) }
  else .error ("unexpected GroupVersion string: " ++ gv)

/-- The loop `for _, name := range names { rm.m[name] = append(rm.m[name], v) }`
of `findAPIs` (main.go:254-256). -/
def registerNames (v : apiResource) : List String → (String → List apiResource) →
    (String → List apiResource)
  | [], m => m
  | n :: rest, m => registerNames v rest (fun s => if s = n then m s ++ [v] else m s)

/-- The body of `findAPIs` for one qualifying descriptor (main.go:249-257):
register it under all its names and append it to the full list. -/
def addResource (gv : GroupVersion) (res : APIResource) (rm : resourceMap) : resourceMap :=
  { list := rm.list ++ [⟨res, gv⟩],
    m := registerNames ⟨res, gv⟩ (apiNames res gv) rm.m }

/-- The inner loop of `findAPIs` over one group's descriptors
(main.go:245-258), skipping descriptors without the "list" verb. -/
def processResources (gv : GroupVersion) : List APIResource → resourceMap → resourceMap
  | [], rm => rm
  | res :: rest, rm =>
    processResources gv rest
      (if contains res.verbs "list" then addResource gv res rm else rm)

/-- The empty `resourceMap` that `findAPIs` starts from (main.go:236-238). -/
def emptyResourceMap : resourceMap := { list := [], m := fun _ => [] }

/-- The outer loop of `findAPIs` over the discovery response
(main.go:239-259): parse each group/version, failing fast on a parse error. -/
def findAPIsAux : List APIResourceList → resourceMap → Except String resourceMap
  | [], rm => .ok rm
  | g :: rest, rm =>
    match parseGroupVersion g.groupVersion with
    | .error e => .error ("\"" ++ g.groupVersion ++ "\" cannot be parsed into groupversion: " ++ e)
    | .ok gv => findAPIsAux rest (processResources gv g.apiResources rm)

/-- Embedding of `findAPIs` (main.go:230-261) applied to an already-fetched discovery
response (the `ServerPreferredResources` transport call is a collaborator). -/
def findAPIs (resList : List APIResourceList) : Except String resourceMap :=
  findAPIsAux resList emptyResourceMap

/-- Embedding of `overrideType` (main.go:97-118): hardcoded lookup overrides for certain
service types; the Go `(apiResource, bool)` return is modelled as `Option`. -/
def overrideType (kind : String) (v : resourceMap) : Option apiResource :=
  if goToLower kind = "svc" ∨ goToLower kind = "service" ∨ goToLower kind = "services" then
    match v.lookup "service.v1." with
    | out :: _ => some out
    | [] => none
  else if goToLower kind = "deploy" ∨ goToLower kind = "deployment" ∨
      goToLower kind = "deployments" then
    match v.lookup "deployment.v1.apps" with
    | out :: _ => some out
    | [] =>
      match v.lookup "deployment.v1beta1.extensions" with
      | out :: _ => some out
      | [] => none
  else none

/-- The not-found error of `run` (main.go:59): `could not find api kind %q`. -/
def notFoundError (kind : String) : String :=
  "could not find api kind \"" ++ kind ++ "\""

/-- The ambiguity error of `run` (main.go:65-66), listing every candidate
rendered by `fullAPIName`. -/
def ambiguousError (kind : String) (names : List String) : String :=
  "ambiguous kind \"" ++ kind ++ "\". use one of these as the KIND disambiguate: [" ++
    String.intercalate ", " names ++ "]"

/-- The kind-resolution logic of `run` (main.go:53-69): consult
`overrideType` first; otherwise look the kind up in the alias index and
branch on the number of matches. -/
def resolveKind (kind : String) (apis : resourceMap) : Except String apiResource :=
  match overrideType kind apis with
  | some k => .ok k
  | none =>
    match apis.lookup kind with
    | [] => .error (notFoundError kind)
    | [a] => .ok a
    | a :: b :: rest => .error (ambiguousError kind ((a :: b :: rest).map fullAPIName))

/-- One iteration of the loop of `getAllResources` (main.go:151-167): skip
a non-namespaced type; a failed fetch overwrites the shared `errResult` and
contributes no items; a successful fetch appends its items. -/
def fleetStep (fetch : apiResource → Except String (List ObjectRecord))
    (acc : List ObjectRecord × Option String) (api : apiResource) :
    List ObjectRecord × Option String :=
  if !api.r.namespaced then acc
  else match fetch api with
    | .error e => (acc.1, some e)
    | .ok v => (acc.1 ++ v, acc.2)

/-- The loop of `getAllResources` (main.go:151-167) sequentialized. -/
def getAllResourcesAux (fetch : apiResource → Except String (List ObjectRecord)) :
    List apiResource → List ObjectRecord × Option String → List ObjectRecord × Option String
  | [], acc => acc
  | api :: rest, acc => getAllResourcesAux fetch rest (fleetStep fetch acc api)

/-- Embedding of `getAllResources` (main.go:145-171): returns the merged items together
with the final value of the shared `errResult` variable. -/
def getAllResources (fetch : apiResource → Except String (List ObjectRecord))
    (apis : List apiResource) : List ObjectRecord × Option String :=
  getAllResourcesAux fetch apis ([], none)

/-- How `run` consumes `getAllResources` (main.go:82-85): a non-nil error is
wrapped and returned, discarding the partial item list. -/
def fetchPhase (fetch : apiResource → Except String (List ObjectRecord))
    (apis : List apiResource) : Except String (List ObjectRecord) :=
  match getAllResources fetch apis with
  | (out, none) => .ok out
  | (_, some e) => .error ("error while querying api objects: " ++ e)

/-- The fixed page size of `queryAPI` (main.go:183): `Limit: 250`. -/
def pageLimit : Nat := 250

/-- The pagination loop of `queryAPI` (main.go:173-197), fuel-bounded. The
server is an oracle from (limit, continuation cursor) to a page of items and
the next cursor; `none` means the Go loop would not terminate within `fuel`
pages. -/
def queryAPIAux (listF : Nat → String → Except String (List ObjectRecord × String))
    (api : apiResource) :
    Nat → String → List ObjectRecord → Option (Except String (List ObjectRecord))
  | 0, _, _ => none
  | fuel + 1, next, out =>
    match listF pageLimit next with
    | .error e => some (.error ("listing resources failed (" ++
        gvrString api.GroupVersionResource ++ "): " ++ e))
    | .ok (items, cont) =>
      if cont = "" then some (.ok (out ++ items))
      else queryAPIAux listF api fuel cont (out ++ items)

/-- Embedding of `queryAPI` (main.go:173-197): start from the empty cursor with no items. -/
def queryAPI (listF : Nat → String → Except String (List ObjectRecord × String))
    (api : apiResource) (fuel : Nat) : Option (Except String (List ObjectRecord)) :=
  queryAPIAux listF api fuel "" []

/-- A server conversation: starting from cursor `c`, the server answers each
page request (at the fixed limit) with the listed `(items, next cursor)`
pairs in order, every intermediate cursor is nonempty, and the last cursor
is empty. -/
def ChainFrom (listF : Nat → String → Except String (List ObjectRecord × String)) :
    String → List (List ObjectRecord × String) → Prop
  | _, [] => False
  | c, [(items, cont)] => listF pageLimit c = .ok (items, cont) ∧ cont = ""
  | c, (items, cont) :: p :: rest =>
    listF pageLimit c = .ok (items, cont) ∧ cont ≠ "" ∧ ChainFrom listF cont (p :: rest)

/-- A partial server conversation: starting from cursor `c`, the listed
pages all succeed with nonempty next cursors, arriving at cursor `c2`. -/
def ReachesCursor (listF : Nat → String → Except String (List ObjectRecord × String)) :
    String → List (List ObjectRecord × String) → String → Prop
  | c, [], c2 => c = c2
  | c, (items, cont) :: rest, c2 =>
    listF pageLimit c = .ok (items, cont) ∧ cont ≠ "" ∧ ReachesCursor listF cont rest c2

/-- The empty-result message of `run` (main.go:89). -/
def noOwnedMessage : String :=
  "No resources are owned by this object through ownerReferences."

/-- The reporting tail of `run` (main.go:87-93): the first component is the
no-owned-resources message when the root's children set is empty (`none`
means the directory itself is printed instead), the second the returned
error (nil on both paths). -/
def runReport (objs : objectDirectory) (rootUID : String) : Option String × Option String :=
  if (objs.ownership rootUID).card = 0 then (some noOwnedMessage, none) else (none, none)

/-- A discovery descriptor with a non-lower-case short name. -/
def cexRes : APIResource :=
  { name := "foos", singularName := "foo", namespaced := true, kind := "Foo",
    verbs := ["list"], shortNames := ["Fz"] }

/-- A one-group discovery response containing `cexRes`. -/
def cexList : List APIResourceList :=
  [{ groupVersion := "g/v1", apiResources := [cexRes] }]

/-- The catalog built from `cexList`. -/
def cexMap : resourceMap := (findAPIs cexList).toOption.getD emptyResourceMap

/-- The core-group v1 Service descriptor. -/
def svcV1 : APIResource :=
  { name := "services", singularName := "service", namespaced := true, kind := "Service",
    verbs := ["list"], shortNames := ["svc"] }

/-- A Knative-style extension-group Service descriptor. -/
def svcKnative : APIResource :=
  { name := "services", singularName := "service", namespaced := true, kind := "Service",
    verbs := ["list"], shortNames := ["kservice"] }

/-- The apps-group v1 Deployment descriptor. -/
def depApps : APIResource :=
  { name := "deployments", singularName := "deployment", namespaced := true,
    kind := "Deployment", verbs := ["list"], shortNames := ["deploy"] }

/-- The legacy extensions-group v1beta1 Deployment descriptor. -/
def depExt : APIResource :=
  { name := "deployments", singularName := "deployment", namespaced := true,
    kind := "Deployment", verbs := ["list"], shortNames := ["deploy"] }

/-- A Gateway descriptor in group `net.a`. -/
def gwA : APIResource :=
  { name := "gateways", singularName := "gateway", namespaced := true, kind := "Gateway",
    verbs := ["list"], shortNames := ["gw"] }

/-- A Gateway descriptor in group `net.b`, sharing every bare alias with `gwA`. -/
def gwB : APIResource :=
  { name := "gateways", singularName := "gateway", namespaced := true, kind := "Gateway",
    verbs := ["list"], shortNames := ["gw"] }

/-- A descriptor without the "list" verb. -/
def hiddenRes : APIResource :=
  { name := "hiddens", singularName := "hidden", namespaced := true, kind := "Hidden",
    verbs := ["get"], shortNames := [] }

/-- A discovery response where the extension-group Service is discovered
before the core-group one, both Deployment groups are present, two groups
share the Gateway aliases, and one descriptor lacks the "list" verb. -/
def demoList : List APIResourceList :=
  [{ groupVersion := "serving.knative.dev/v1", apiResources := [svcKnative] },
   { groupVersion := "v1", apiResources := [svcV1] },
   { groupVersion := "apps/v1", apiResources := [depApps] },
   { groupVersion := "extensions/v1beta1", apiResources := [depExt] },
   { groupVersion := "net.a/v1", apiResources := [gwA, hiddenRes] },
   { groupVersion := "net.b/v1", apiResources := [gwB] }]

/-- The catalog built from `demoList`. -/
def demoMap : resourceMap := (findAPIs demoList).toOption.getD emptyResourceMap

/-- A discovery response with only the legacy extensions-group Deployment. -/
def legacyList : List APIResourceList :=
  [{ groupVersion := "extensions/v1beta1", apiResources := [depExt] }]

/-- The catalog built from `legacyList`. -/
def legacyMap : resourceMap := (findAPIs legacyList).toOption.getD emptyResourceMap

/-- A namespaced resource type for fleet-fetcher examples. -/
def nsFoo : apiResource :=
  ⟨{ name := "foos", singularName := "foo", namespaced := true, kind := "Foo",
     verbs := ["list"], shortNames := [] }, ⟨"g", "v1"⟩⟩

/-- Another namespaced resource type for fleet-fetcher examples. -/
def nsBar : apiResource :=
  ⟨{ name := "bars", singularName := "bar", namespaced := true, kind := "Bar",
     verbs := ["list"], shortNames := [] }, ⟨"g", "v1"⟩⟩

/-- A cluster-scoped resource type for fleet-fetcher examples. -/
def clusterBaz : apiResource :=
  ⟨{ name := "bazs", singularName := "baz", namespaced := false, kind := "Baz",
     verbs := ["list"], shortNames := [] }, ⟨"g", "v1"⟩⟩

/-- A fleet of resource types mixing scopes. -/
def fleetApis : List apiResource := [nsFoo, clusterBaz, nsBar]

/-- A fetch oracle where every type succeeds; the cluster-scoped type would
contribute an item if it were fetched. -/
def okFetch : apiResource → Except String (List ObjectRecord) :=
  fun a =>
    if a = nsFoo then .ok [⟨"u1", []⟩, ⟨"u2", []⟩]
    else if a = nsBar then .ok [⟨"u3", []⟩]
    else .ok [⟨"u9", []⟩]

/-- A fetch oracle where `nsBar` fails and everything else succeeds. -/
def badFetch : apiResource → Except String (List ObjectRecord) :=
  fun a => if a = nsBar then .error "boom" else okFetch a

/-- First page of the three-page pagination example. -/
def pageA : List ObjectRecord := [⟨"p1", []⟩, ⟨"p2", []⟩]

/-- Second page of the three-page pagination example. -/
def pageB : List ObjectRecord := [⟨"p3", []⟩]

/-- Third page of the three-page pagination example. -/
def pageC : List ObjectRecord := [⟨"p4", []⟩]

/-- A three-page server with cursor sequence `"" → C1 → C2 → ""`. -/
def server3 : Nat → String → Except String (List ObjectRecord × String) :=
  fun _ c =>
    if c = "" then .ok (pageA, "C1")
    else if c = "C1" then .ok (pageB, "C2")
    else if c = "C2" then .ok (pageC, "")
    else .error "bad cursor"

/-- A server whose second page fails with a transport error. -/
def serverBad : Nat → String → Except String (List ObjectRecord × String) :=
  fun _ c => if c = "" then .ok (pageA, "C1") else .error "transport"

theorem foldl_ownerRefs_mem (refs : List String) (u : String)
    (m : String → Finset String) (x c : String) :
    c ∈ (refs.foldl (fun m ref => fun k => if k = ref then insert u (m k) else m k) m) x ↔
      (c = u ∧ x ∈ refs) ∨ c ∈ m x := by
  induction refs generalizing m with
  | nil => simp
  | cons r rs ih =>
    simp only [List.foldl_cons, ih, List.mem_cons]
    by_cases hx : x = r
    · subst hx
      simp only [eq_self_iff_true, if_true, Finset.mem_insert]
      tauto
    · simp only [if_neg hx]
      tauto

theorem mem_ownership_foldl (objs : List ObjectRecord) (d : objectDirectory)
    (x c : String) :
    c ∈ (objs.foldl insertRecord d).ownership x ↔
      (∃ o ∈ objs, o.uid = c ∧ x ∈ o.ownerRefs) ∨ c ∈ d.ownership x := by
  induction objs generalizing d with
  | nil => simp
  | cons o os ih =>
    simp only [List.foldl_cons, ih, List.mem_cons]
    constructor
    · rintro (⟨o', ho', hc, hx⟩ | hm)
      · exact Or.inl ⟨o', Or.inr ho', hc, hx⟩
      · rcases (foldl_ownerRefs_mem o.ownerRefs o.uid d.ownership x c).1 hm with
          ⟨hc, hx⟩ | hm'
        · exact Or.inl ⟨o, Or.inl rfl, hc.symm, hx⟩
        · exact Or.inr hm'
    · rintro (⟨o', rfl | ho', hc, hx⟩ | hm)
      · exact Or.inr ((foldl_ownerRefs_mem o'.ownerRefs o'.uid d.ownership x c).2
          (Or.inl ⟨hc.symm, hx⟩))
      · exact Or.inl ⟨o', ho', hc, hx⟩
      · exact Or.inr ((foldl_ownerRefs_mem o.ownerRefs o.uid d.ownership x c).2
          (Or.inr hm))

/-- Membership characterization of the ownership map: `c` is recorded as a
child of `x` exactly when some input record has UID `c` and declares `x`
among its owner references. -/
theorem mem_ownership_iff (objs : List ObjectRecord) (x c : String) :
    c ∈ (newObjectDirectory objs).ownership x ↔
      ∃ o ∈ objs, o.uid = c ∧ x ∈ o.ownerRefs := by
  have h := mem_ownership_foldl objs { items := fun _ => none, ownership := fun _ => ∅ } x c
  simpa [newObjectDirectory] using h

theorem ownership_eq_filter (objs : List ObjectRecord) (x : String) :
    (newObjectDirectory objs).ownership x =
      ((objs.filter (fun o => x ∈ o.ownerRefs)).map (fun o => o.uid)).toFinset := by
  ext c
  simp only [mem_ownership_iff, List.mem_toFinset, List.mem_map, List.mem_filter,
    decide_eq_true_eq]
  constructor
  · rintro ⟨o, ho, hc, hx⟩
    exact ⟨o, ⟨ho, hx⟩, hc⟩
  · rintro ⟨o, ⟨ho, hx⟩, hc⟩
    exact ⟨o, ho, hc, hx⟩

/-- Claim C1: for every list of `ObjectRecord`s and every identity `x`, the
children set `ownership[x]` built by `newObjectDirectory` equals exactly the
set of UIDs of input records declaring `x` among their owner references
(hence empty when no record does), and the children sets agree across every
permutation of the input list. -/
theorem newObjectDirectory_ownership_spec (objs objs2 : List ObjectRecord)
    (x : String) (hperm : List.Perm objs objs2) :
    (newObjectDirectory objs).ownership x =
      ((objs.filter (fun o => x ∈ o.ownerRefs)).map (fun o => o.uid)).toFinset ∧
    ((∀ o ∈ objs, x ∉ o.ownerRefs) → (newObjectDirectory objs).ownership x = ∅) ∧
    (newObjectDirectory objs).ownership x = (newObjectDirectory objs2).ownership x := by
  refine ⟨ownership_eq_filter objs x, ?_, ?_⟩
  · intro h
    ext c
    simp only [mem_ownership_iff, Finset.not_mem_empty, iff_false, not_exists]
    rintro o ⟨ho, _, hx⟩
    exact h o ho hx
  · ext c
    simp only [mem_ownership_iff]
    constructor
    · rintro ⟨o, ho, h⟩
      exact ⟨o, hperm.mem_iff.1 ho, h⟩
    · rintro ⟨o, ho, h⟩
      exact ⟨o, hperm.mem_iff.2 ho, h⟩

/-- Witness for C1 at the spec's A, B, C, D example, with the reversed
insertion order as the permutation. -/
theorem newObjectDirectory_ownership_spec_witness :
    (newObjectDirectory exObjs).ownership "A" =
      ((exObjs.filter (fun o => "A" ∈ o.ownerRefs)).map (fun o => o.uid)).toFinset ∧
    ((∀ o ∈ exObjs, "A" ∉ o.ownerRefs) → (newObjectDirectory exObjs).ownership "A" = ∅) ∧
    (newObjectDirectory exObjs).ownership "A" =
      (newObjectDirectory exObjs2).ownership "A" :=
  newObjectDirectory_ownership_spec exObjs exObjs2 "A" (by decide)

theorem intercalate_pair (a b : String) : String.intercalate "." [a, b] = a ++ "." ++ b := by
  simp [String.intercalate, String.intercalate.go]

theorem intercalate_triple (a b c : String) :
    String.intercalate "." [a, b, c] = a ++ "." ++ b ++ "." ++ c := by
  simp [String.intercalate, String.intercalate.go]

theorem foldl_append_flatMap {α β : Type} (f : α → List β) (l : List α) (init : List β) :
    l.foldl (fun out n => out ++ f n) init = init ++ l.flatMap f := by
  induction l generalizing init with
  | nil => simp
  | cons n rest ih => simp [ih, List.append_assoc]

theorem apiNames_flatMap (a : APIResource) (gv : GroupVersion) :
    apiNames a gv =
      ((if a.singularName = "" then goToLower a.kind else a.singularName) ::
        a.name :: a.shortNames).flatMap
        (fun n => [n, n ++ "." ++ gv.group, n ++ "." ++ gv.version ++ "." ++ gv.group]) := by
  unfold apiNames
  rw [foldl_append_flatMap (fun n => [n, String.intercalate "." [n, gv.group],
    String.intercalate "." [n, gv.version, gv.group]])]
  rw [show (fun n => [n, String.intercalate "." [n, gv.group],
        String.intercalate "." [n, gv.version, gv.group]]) =
      (fun n => [n, n ++ "." ++ gv.group, n ++ "." ++ gv.version ++ "." ++ gv.group]) from
    funext fun n => by rw [intercalate_pair, intercalate_triple]]
  simp

theorem registerNames_apply (v : apiResource) (names : List String)
    (m : String → List apiResource) (s : String) :
    registerNames v names m s = m s ++ List.replicate (names.count s) v := by
  induction names generalizing m with
  | nil => simp [registerNames]
  | cons n rest ih =>
    rw [registerNames, ih]
    by_cases h : s = n
    · subst h
      simp [List.count_cons, List.replicate_succ]
    · have hne : (n == s) = false := by
        rw [beq_eq_false_iff_ne]
        exact fun hc => h hc.symm
      simp [if_neg h, List.count_cons, hne]

/-- Claim C7: a descriptor supporting the "list" verb is processed as one
`addResource` step, which appends the resource type once to the full list
and registers it under exactly the alias set
{singular, plural, short names} × {bare, name.group, name.version.group},
with the singular base falling back to the lower-cased kind. -/
theorem addResource_alias_set_spec (r : APIResource) (gv : GroupVersion) (rm : resourceMap)
    (h : contains r.verbs "list" = true) :
    processResources gv [r] rm = addResource gv r rm ∧
    (addResource gv r rm).list = rm.list ++ [⟨r, gv⟩] ∧
    (∀ s, (⟨r, gv⟩ : apiResource) ∈ (addResource gv r rm).m s ↔
        s ∈ apiNames r gv ∨ (⟨r, gv⟩ : apiResource) ∈ rm.m s) ∧
    (∀ s, s ∉ apiNames r gv → (addResource gv r rm).m s = rm.m s) ∧
    apiNames r gv =
      ((if r.singularName = "" then goToLower r.kind else r.singularName) ::
        r.name :: r.shortNames).flatMap
        (fun n => [n, n ++ "." ++ gv.group, n ++ "." ++ gv.version ++ "." ++ gv.group]) := by
  refine ⟨by simp [processResources, h], rfl, ?_, ?_, apiNames_flatMap r gv⟩
  · intro s
    have hm : (addResource gv r rm).m s =
        rm.m s ++ List.replicate ((apiNames r gv).count s) ⟨r, gv⟩ :=
      registerNames_apply _ _ _ _
    rw [hm]
    simp only [List.mem_append, List.mem_replicate]
    constructor
    · rintro (hmem | ⟨hc, _⟩)
      · exact Or.inr hmem
      · exact Or.inl (by
          by_contra hs
          exact hc (List.count_eq_zero.2 hs))
    · rintro (hs | hmem)
      · refine Or.inr ⟨?_, by trivial⟩
        intro hzero
        exact (List.count_eq_zero.1 hzero) hs
      · exact Or.inl hmem
  · intro s hs
    have hm : (addResource gv r rm).m s =
        rm.m s ++ List.replicate ((apiNames r gv).count s) ⟨r, gv⟩ :=
      registerNames_apply _ _ _ _
    rw [hm, List.count_eq_zero.2 hs]
    simp

/-- Witness for C7 at the `cexRes` descriptor over the empty catalog. -/
theorem addResource_alias_set_spec_witness :
    contains cexRes.verbs "list" = true ∧
    (addResource ⟨"g", "v1"⟩ cexRes emptyResourceMap).list =
      emptyResourceMap.list ++ [⟨cexRes, ⟨"g", "v1"⟩⟩] ∧
    ((⟨cexRes, ⟨"g", "v1"⟩⟩ : apiResource) ∈
        (addResource ⟨"g", "v1"⟩ cexRes emptyResourceMap).m "foos" ↔
      "foos" ∈ apiNames cexRes ⟨"g", "v1"⟩ ∨
        (⟨cexRes, ⟨"g", "v1"⟩⟩ : apiResource) ∈ emptyResourceMap.m "foos") :=
  ⟨by decide,
   (addResource_alias_set_spec cexRes ⟨"g", "v1"⟩ emptyResourceMap (by decide)).2.1,
   (addResource_alias_set_spec cexRes ⟨"g", "v1"⟩ emptyResourceMap (by decide)).2.2.1 "foos"⟩

/-- Claim C10: for a core (empty-string) group, the group-qualified and
version-group-qualified aliases carry a trailing dot (`name.` and
`name.version.`); in particular a core v1 descriptor with singular name
"service" is registered under the literal key `service.v1.`, which is
exactly the catalog key the service override consults. -/
theorem apiNames_core_group_spec (a : APIResource) (gv : GroupVersion)
    (hg : gv.group = "") :
    apiNames a gv =
      ((if a.singularName = "" then goToLower a.kind else a.singularName) ::
        a.name :: a.shortNames).flatMap
        (fun n => [n, n ++ ".", n ++ "." ++ gv.version ++ "."]) ∧
    (a.singularName = "service" → gv.version = "v1" →
      "service.v1." ∈ apiNames a gv) ∧
    (∀ v : resourceMap, overrideType "svc" v =
      match v.lookup "service.v1." with
      | out :: _ => some out
      | [] => none) := by
  have hchar : apiNames a gv =
      ((if a.singularName = "" then goToLower a.kind else a.singularName) ::
        a.name :: a.shortNames).flatMap
        (fun n => [n, n ++ ".", n ++ "." ++ gv.version ++ "."]) := by
    rw [apiNames_flatMap, hg]
    rw [show (fun n => [n, n ++ "." ++ "", n ++ "." ++ gv.version ++ "." ++ ""]) =
        (fun n => [n, n ++ ".", n ++ "." ++ gv.version ++ "."]) from
      funext fun n => by rw [String.append_empty, String.append_empty]]
  refine ⟨hchar, ?_, ?_⟩
  · intro hs hv
    rw [hchar, hs, hv]
    have hif : (if ("service" : String) = "" then goToLower a.kind else "service") =
        "service" := if_neg (by decide)
    rw [hif, List.flatMap_cons]
    apply List.mem_append_left
    decide
  · intro v
    rfl

/-- Witness for C10 at the core-group v1 Service descriptor. -/
theorem apiNames_core_group_spec_witness :
    "service.v1." ∈ apiNames svcV1 ⟨"", "v1"⟩ ∧
    overrideType "svc" demoMap =
      (match demoMap.lookup "service.v1." with
       | out :: _ => some out
       | [] => none) :=
  ⟨(apiNames_core_group_spec svcV1 ⟨"", "v1"⟩ rfl).2.1 rfl rfl,
   (apiNames_core_group_spec svcV1 ⟨"", "v1"⟩ rfl).2.2 demoMap⟩

theorem registerNames_mem_cases (v a : apiResource) (names : List String)
    (m : String → List apiResource) (s : String)
    (hmem : a ∈ registerNames v names m s) : a ∈ m s ∨ a = v := by
  rw [registerNames_apply] at hmem
  rcases List.mem_append.1 hmem with h | h
  · exact Or.inl h
  · exact Or.inr (List.eq_of_mem_replicate h)

theorem registerNames_mono (v a : apiResource) (names : List String)
    (m : String → List apiResource) (s : String) (h : a ∈ m s) :
    a ∈ registerNames v names m s := by
  rw [registerNames_apply]
  exact List.mem_append_left _ h

theorem processResources_inv (gv : GroupVersion) (rs : List APIResource) (rm : resourceMap)
    (hm : ∀ s a, a ∈ rm.m s → contains a.r.verbs "list" = true)
    (hl : ∀ a ∈ rm.list, contains a.r.verbs "list" = true) :
    (∀ s a, a ∈ (processResources gv rs rm).m s → contains a.r.verbs "list" = true) ∧
    (∀ a ∈ (processResources gv rs rm).list, contains a.r.verbs "list" = true) := by
  induction rs generalizing rm with
  | nil => exact ⟨hm, hl⟩
  | cons r rest ih =>
    rw [processResources]
    by_cases hv : contains r.verbs "list" = true
    · rw [if_pos hv]
      apply ih
      · intro s a ha
        rcases registerNames_mem_cases ⟨r, gv⟩ a (apiNames r gv) rm.m s ha with h | h
        · exact hm s a h
        · subst h
          exact hv
      · intro a ha
        rcases List.mem_append.1 ha with h | h
        · exact hl a h
        · have := List.mem_singleton.1 h
          subst this
          exact hv
    · rw [if_neg hv]
      exact ih rm hm hl

theorem processResources_mono (gv : GroupVersion) (rs : List APIResource)
    (rm : resourceMap) (a : apiResource) (s : String) (h : a ∈ rm.m s) :
    a ∈ (processResources gv rs rm).m s := by
  induction rs generalizing rm with
  | nil => exact h
  | cons r rest ih =>
    rw [processResources]
    by_cases hv : contains r.verbs "list" = true
    · rw [if_pos hv]
      exact ih _ (registerNames_mono ⟨r, gv⟩ a (apiNames r gv) rm.m s h)
    · rw [if_neg hv]
      exact ih rm h

theorem processResources_registers (gv : GroupVersion) (rs : List APIResource)
    (rm : resourceMap) (r : APIResource) (s : String)
    (hr : r ∈ rs) (hv : contains r.verbs "list" = true) (hs : s ∈ apiNames r gv) :
    (⟨r, gv⟩ : apiResource) ∈ (processResources gv rs rm).m s := by
  induction rs generalizing rm with
  | nil => cases hr
  | cons r0 rest ih =>
    rw [processResources]
    rcases List.mem_cons.1 hr with rfl | hr2
    · rw [if_pos hv]
      apply processResources_mono
      rw [show (addResource gv r rm).m s =
          rm.m s ++ List.replicate ((apiNames r gv).count s) ⟨r, gv⟩ from
        registerNames_apply _ _ _ _]
      refine List.mem_append_right _ (List.mem_replicate.2 ⟨?_, by trivial⟩)
      intro h0
      exact (List.count_eq_zero.1 h0) hs
    · by_cases hv0 : contains r0.verbs "list" = true
      · rw [if_pos hv0]
        exact ih _ hr2
      · rw [if_neg hv0]
        exact ih rm hr2

theorem findAPIsAux_mono (l : List APIResourceList) (rm rm2 : resourceMap)
    (a : apiResource) (s : String) (h : findAPIsAux l rm = .ok rm2)
    (hmem : a ∈ rm.m s) : a ∈ rm2.m s := by
  induction l generalizing rm with
  | nil =>
    rw [findAPIsAux] at h
    cases h
    exact hmem
  | cons g rest ih =>
    rw [findAPIsAux] at h
    cases hp : parseGroupVersion g.groupVersion with
    | error e =>
      rw [hp] at h
      cases h
    | ok gv =>
      rw [hp] at h
      exact ih _ h (processResources_mono gv g.apiResources rm a s hmem)

theorem findAPIsAux_inv (l : List APIResourceList) (rm rm2 : resourceMap)
    (h : findAPIsAux l rm = .ok rm2)
    (hm : ∀ s a, a ∈ rm.m s → contains a.r.verbs "list" = true)
    (hl : ∀ a ∈ rm.list, contains a.r.verbs "list" = true) :
    (∀ s a, a ∈ rm2.m s → contains a.r.verbs "list" = true) ∧
    (∀ a ∈ rm2.list, contains a.r.verbs "list" = true) := by
  induction l generalizing rm with
  | nil =>
    rw [findAPIsAux] at h
    cases h
    exact ⟨hm, hl⟩
  | cons g rest ih =>
    rw [findAPIsAux] at h
    cases hp : parseGroupVersion g.groupVersion with
    | error e =>
      rw [hp] at h
      cases h
    | ok gv =>
      rw [hp] at h
      exact ih _ h (processResources_inv gv g.apiResources rm hm hl).1
        (processResources_inv gv g.apiResources rm hm hl).2

theorem findAPIsAux_registers (l : List APIResourceList) (rm rm2 : resourceMap)
    (g : APIResourceList) (gv : GroupVersion) (r : APIResource) (s : String)
    (hg : g ∈ l) (hp : parseGroupVersion g.groupVersion = .ok gv)
    (hr : r ∈ g.apiResources) (hv : contains r.verbs "list" = true)
    (hs : s ∈ apiNames r gv) (h : findAPIsAux l rm = .ok rm2) :
    (⟨r, gv⟩ : apiResource) ∈ rm2.m s := by
  induction l generalizing rm with
  | nil => cases hg
  | cons g0 rest ih =>
    rw [findAPIsAux] at h
    rcases List.mem_cons.1 hg with rfl | hg2
    · rw [hp] at h
      exact findAPIsAux_mono rest _ rm2 _ s h
        (processResources_registers gv g.apiResources rm r s hr hv hs)
    · cases hp0 : parseGroupVersion g0.groupVersion with
      | error e =>
        rw [hp0] at h
        cases h
      | ok gv0 =>
        rw [hp0] at h
        exact ih _ hg2 h

/-- Claim C8: in every catalog built by `findAPIs`, every alias key maps
only to resource types whose verbs contain "list", likewise the full list;
a descriptor lacking the "list" verb appears nowhere. -/
theorem findAPIs_only_listable (resList : List APIResourceList) (rm : resourceMap)
    (h : findAPIs resList = .ok rm) :
    (∀ s, ∀ a ∈ rm.m s, contains a.r.verbs "list" = true) ∧
    (∀ s, ∀ a ∈ rm.lookup s, contains a.r.verbs "list" = true) ∧
    (∀ a ∈ rm.list, contains a.r.verbs "list" = true) ∧
    (∀ r gvx, contains r.verbs "list" = false →
      (∀ s, (⟨r, gvx⟩ : apiResource) ∉ rm.m s) ∧
      (⟨r, gvx⟩ : apiResource) ∉ rm.list) := by
  have hinv := findAPIsAux_inv resList emptyResourceMap rm h
    (by intro s a ha; cases ha) (by intro a ha; cases ha)
  refine ⟨fun s a ha => hinv.1 s a ha, fun s a ha => hinv.1 _ a ha,
    hinv.2, fun r gvx hfalse => ⟨fun s hmem => ?_, fun hmem => ?_⟩⟩
  · exact absurd (hinv.1 s _ hmem) (by simp [hfalse])
  · exact absurd (hinv.2 _ hmem) (by simp [hfalse])

/-- Witness for C8: the `hiddenRes` descriptor of `demoList`, which lacks
the "list" verb, is registered under no alias and absent from the full
list. -/
theorem findAPIs_only_listable_witness :
    (⟨hiddenRes, ⟨"net.a", "v1"⟩⟩ : apiResource) ∉ demoMap.m "hidden" ∧
    (⟨hiddenRes, ⟨"net.a", "v1"⟩⟩ : apiResource) ∉ demoMap.list :=
  ⟨((findAPIs_only_listable demoList demoMap rfl).2.2.2 hiddenRes
      ⟨"net.a", "v1"⟩ (by decide)).1 "hidden",
   ((findAPIs_only_listable demoList demoMap rfl).2.2.2 hiddenRes
      ⟨"net.a", "v1"⟩ (by decide)).2⟩

/-- Claim C5 (amended): every alias generated by the catalog-building rule
that is itself fully lower-case, looked up through any case variant, yields
the originating resource type among the results. (The unamended claim fails
for aliases containing upper-case characters, since keys are registered
verbatim while lookups lower-case the query; see the counterexample.) -/
theorem catalog_alias_lookup_lower (resList : List APIResourceList) (rm : resourceMap)
    (g : APIResourceList) (gv : GroupVersion) (r : APIResource) (a s : String)
    (h : findAPIs resList = .ok rm) (hg : g ∈ resList)
    (hp : parseGroupVersion g.groupVersion = .ok gv)
    (hr : r ∈ g.apiResources) (hv : contains r.verbs "list" = true)
    (ha : a ∈ apiNames r gv) (hlow : goToLower a = a)
    (hs : goToLower s = goToLower a) :
    (⟨r, gv⟩ : apiResource) ∈ rm.lookup s := by
  unfold resourceMap.lookup
  rw [hs, hlow]
  exact findAPIsAux_registers resList emptyResourceMap rm g gv r a hg hp hr hv ha h

/-- Witness for C5 (amended): the alias `service.v1.` of the core Service,
queried through the case variant `SERVICE.V1.`, finds the core Service. -/
theorem catalog_alias_lookup_lower_witness :
    (⟨svcV1, ⟨"", "v1"⟩⟩ : apiResource) ∈ demoMap.lookup "SERVICE.V1." :=
  catalog_alias_lookup_lower demoList demoMap
    { groupVersion := "v1", apiResources := [svcV1] } ⟨"", "v1"⟩ svcV1
    "service.v1." "SERVICE.V1." rfl (by decide) rfl (by decide) (by decide)
    (by decide) (by decide) (by decide)

/-- Counterexample to C5 as stated: the short name `Fz` generated for
`cexRes` is registered verbatim, but looking the exact alias `Fz` up
lower-cases the query to `fz`, which is not a key, so the result is empty
and does not contain the originating type. -/
theorem catalog_alias_case_counterexample :
    findAPIs cexList = .ok cexMap ∧
    "Fz" ∈ apiNames cexRes ⟨"g", "v1"⟩ ∧
    cexMap.lookup "Fz" = [] :=
  ⟨rfl, by decide, by decide⟩

/-- Claim C2: when no override fires, the resolver looks the lower-cased
kind up in the alias index; zero matches fail with the not-found error
naming the kind, one match is returned, and several matches fail with the
ambiguity error listing every candidate as `resource.version.group`. -/
theorem resolveKind_no_override_spec (kind : String) (apis : resourceMap)
    (h : overrideType kind apis = none) :
    apis.lookup kind = apis.m (goToLower kind) ∧
    (apis.lookup kind = [] → resolveKind kind apis = .error (notFoundError kind)) ∧
    (∀ a, apis.lookup kind = [a] → resolveKind kind apis = .ok a) ∧
    (1 < (apis.lookup kind).length → resolveKind kind apis =
      .error (ambiguousError kind ((apis.lookup kind).map fullAPIName))) := by
  have hrk : resolveKind kind apis =
      (match apis.lookup kind with
       | [] => .error (notFoundError kind)
       | [a] => .ok a
       | a :: b :: rest =>
         .error (ambiguousError kind ((a :: b :: rest).map fullAPIName))) := by
    unfold resolveKind
    rw [h]
  refine ⟨rfl, ?_, ?_, ?_⟩
  · intro hl
    rw [hrk, hl]
  · intro a hl
    rw [hrk, hl]
  · intro hlen
    cases hx : apis.lookup kind with
    | nil => rw [hx] at hlen; simp at hlen
    | cons a rest =>
      cases rest with
      | nil => rw [hx] at hlen; simp at hlen
      | cons b rest2 => rw [hrk, hx]

/-- Witness for C2 over `demoMap`: an unknown kind, a unique kind and an
ambiguous kind. -/
theorem resolveKind_no_override_spec_witness :
    resolveKind "doesnotexist" demoMap = .error (notFoundError "doesnotexist") ∧
    resolveKind "kservice" demoMap = .ok ⟨svcKnative, ⟨"serving.knative.dev", "v1"⟩⟩ ∧
    resolveKind "gw" demoMap =
      .error (ambiguousError "gw" ((demoMap.lookup "gw").map fullAPIName)) :=
  ⟨(resolveKind_no_override_spec "doesnotexist" demoMap (by decide)).2.1 (by decide),
   (resolveKind_no_override_spec "kservice" demoMap (by decide)).2.2.1 _ (by decide),
   (resolveKind_no_override_spec "gw" demoMap (by decide)).2.2.2 (by decide)⟩

/-- Claim C6: the override table runs before the generic index. For the
service family the first entry of the catalog under the literal key
`service.v1.` wins whenever that lookup is non-empty; for the deployment
family `deployment.v1.apps` is tried first, then
`deployment.v1beta1.extensions`; a firing override makes the resolver
return its pick directly, bypassing the ambiguity check. -/
theorem overrideType_spec (kind : String) (v : resourceMap) :
    ((goToLower kind = "svc" ∨ goToLower kind = "service" ∨
        goToLower kind = "services") →
      (∀ a rest, v.lookup "service.v1." = a :: rest → overrideType kind v = some a) ∧
      (v.lookup "service.v1." = [] → overrideType kind v = none)) ∧
    ((goToLower kind = "deploy" ∨ goToLower kind = "deployment" ∨
        goToLower kind = "deployments") →
      (∀ a rest, v.lookup "deployment.v1.apps" = a :: rest →
        overrideType kind v = some a) ∧
      (∀ b rest, v.lookup "deployment.v1.apps" = [] →
        v.lookup "deployment.v1beta1.extensions" = b :: rest →
        overrideType kind v = some b) ∧
      (v.lookup "deployment.v1.apps" = [] →
        v.lookup "deployment.v1beta1.extensions" = [] →
        overrideType kind v = none)) ∧
    (∀ k, overrideType kind v = some k → resolveKind kind v = .ok k) := by
  refine ⟨?_, ?_, ?_⟩
  · intro hsvc
    have key : overrideType kind v =
        (match v.lookup "service.v1." with
         | out :: _ => some out
         | [] => none) := by
      unfold overrideType
      rw [if_pos hsvc]
    exact ⟨fun a rest hl => by rw [key, hl], fun hl => by rw [key, hl]⟩
  · intro hdep
    have hn : ¬(goToLower kind = "svc" ∨ goToLower kind = "service" ∨
        goToLower kind = "services") := by
      rcases hdep with heq | heq | heq <;> rw [heq] <;> decide
    have key : overrideType kind v =
        (match v.lookup "deployment.v1.apps" with
         | out :: _ => some out
         | [] =>
           match v.lookup "deployment.v1beta1.extensions" with
           | out :: _ => some out
           | [] => none) := by
      unfold overrideType
      rw [if_neg hn, if_pos hdep]
    refine ⟨fun a rest hl => by rw [key, hl], ?_, ?_⟩
    · intro b rest h1 h2
      rw [key, h1, h2]
    · intro h1 h2
      rw [key, h1, h2]
  · intro k hk
    unfold resolveKind
    rw [hk]

/-- Witness for C6: over `demoMap` the core v1 Service beats the
extension-group Service discovered first, and the apps-group Deployment is
picked; over `legacyMap` (no apps group) the extensions-group Deployment is
the fallback. -/
theorem overrideType_spec_witness :
    overrideType "svc" demoMap = some ⟨svcV1, ⟨"", "v1"⟩⟩ ∧
    resolveKind "svc" demoMap = .ok ⟨svcV1, ⟨"", "v1"⟩⟩ ∧
    overrideType "deploy" demoMap = some ⟨depApps, ⟨"apps", "v1"⟩⟩ ∧
    overrideType "deploy" legacyMap = some ⟨depExt, ⟨"extensions", "v1beta1"⟩⟩ :=
  ⟨((overrideType_spec "svc" demoMap).1 (by decide)).1 ⟨svcV1, ⟨"", "v1"⟩⟩ [] (by decide),
   (overrideType_spec "svc" demoMap).2.2 ⟨svcV1, ⟨"", "v1"⟩⟩
     (((overrideType_spec "svc" demoMap).1 (by decide)).1 ⟨svcV1, ⟨"", "v1"⟩⟩ [] (by decide)),
   ((overrideType_spec "deploy" demoMap).2.1 (by decide)).1
     ⟨depApps, ⟨"apps", "v1"⟩⟩ [] (by decide),
   ((overrideType_spec "deploy" legacyMap).2.1 (by decide)).2.1
     ⟨depExt, ⟨"extensions", "v1beta1"⟩⟩ [] (by decide) (by decide)⟩

/-- Claim C9: an empty children set for the root makes `run` print the
literal no-owned-resources message and return success; when some fetched
object declares the root as owner, the children set is non-empty and the
directory is printed instead of that message (still with a nil error). -/
theorem runReport_spec (objs : List ObjectRecord) (root : String) :
    ((newObjectDirectory objs).ownership root = ∅ →
      runReport (newObjectDirectory objs) root = (some noOwnedMessage, none)) ∧
    (∀ o ∈ objs, root ∈ o.ownerRefs →
      (newObjectDirectory objs).ownership root ≠ ∅ ∧
      runReport (newObjectDirectory objs) root = (none, none)) := by
  constructor
  · intro h
    unfold runReport
    rw [h]
    simp
  · intro o ho hroot
    have hmem : o.uid ∈ (newObjectDirectory objs).ownership root :=
      (mem_ownership_iff objs root o.uid).2 ⟨o, ho, rfl, hroot⟩
    have hne : (newObjectDirectory objs).ownership root ≠ ∅ := by
      intro he
      rw [he] at hmem
      exact absurd hmem (Finset.not_mem_empty _)
    have hcard : ¬((newObjectDirectory objs).ownership root).card = 0 := fun hc =>
      hne (Finset.card_eq_zero.1 hc)
    refine ⟨hne, ?_⟩
    unfold runReport
    rw [if_neg hcard]

/-- Witness for C9 at the A, B, C, D example: C has no dependents (message
and success), A has dependents (no message). -/
theorem runReport_spec_witness :
    runReport (newObjectDirectory exObjs) "C" = (some noOwnedMessage, none) ∧
    (newObjectDirectory exObjs).ownership "A" ≠ ∅ ∧
    runReport (newObjectDirectory exObjs) "A" = (none, none) :=
  ⟨(runReport_spec exObjs "C").1 (by decide),
   ((runReport_spec exObjs "A").2 exB (by decide) (by decide)).1,
   ((runReport_spec exObjs "A").2 exB (by decide) (by decide)).2⟩

theorem exists_ok_of_toOption_isSome {α : Type} (x : Except String α)
    (h : x.toOption.isSome = true) : ∃ v, x = .ok v := by
  cases x with
  | ok v => exact ⟨v, rfl⟩
  | error e => simp [Except.toOption] at h

theorem exists_error_of_toOption_none {α : Type} (x : Except String α)
    (h : x.toOption = none) : ∃ e, x = .error e := by
  cases x with
  | ok v => simp [Except.toOption] at h
  | error e => exact ⟨e, rfl⟩

theorem getAllResourcesAux_filter (fetch : apiResource → Except String (List ObjectRecord))
    (apis : List apiResource) (acc : List ObjectRecord × Option String) :
    getAllResourcesAux fetch apis acc =
      getAllResourcesAux fetch (apis.filter (fun a => a.r.namespaced)) acc := by
  induction apis generalizing acc with
  | nil => rfl
  | cons api rest ih =>
    cases hns : api.r.namespaced <;>
      simp [getAllResourcesAux, fleetStep, List.filter_cons, hns, ih]

theorem getAllResourcesAux_err_persist
    (fetch : apiResource → Except String (List ObjectRecord))
    (apis : List apiResource) (acc : List ObjectRecord × Option String)
    (hsome : acc.2.isSome = true) :
    (getAllResourcesAux fetch apis acc).2.isSome = true := by
  induction apis generalizing acc with
  | nil => exact hsome
  | cons api rest ih =>
    rw [getAllResourcesAux]
    apply ih
    cases hns : api.r.namespaced
    · simpa [fleetStep, hns] using hsome
    · cases hf : fetch api with
      | error e => simp [fleetStep, hns, hf]
      | ok v => simpa [fleetStep, hns, hf] using hsome

theorem getAllResourcesAux_err_of_fail
    (fetch : apiResource → Except String (List ObjectRecord))
    (apis : List apiResource) (acc : List ObjectRecord × Option String)
    (hfail : ∃ a ∈ apis, a.r.namespaced = true ∧ ∃ e, fetch a = .error e) :
    (getAllResourcesAux fetch apis acc).2.isSome = true := by
  induction apis generalizing acc with
  | nil =>
    rcases hfail with ⟨a, ha, _⟩
    cases ha
  | cons api rest ih =>
    rw [getAllResourcesAux]
    rcases hfail with ⟨a, ha, hns, e, he⟩
    rcases List.mem_cons.1 ha with rfl | ha2
    · have hacc : fleetStep fetch acc a = (acc.1, some e) := by
        unfold fleetStep
        rw [hns, he]
        rfl
      rw [hacc]
      exact getAllResourcesAux_err_persist fetch rest _ rfl
    · exact ih _ ⟨a, ha2, hns, e, he⟩

theorem getAllResourcesAux_all_ok
    (fetch : apiResource → Except String (List ObjectRecord))
    (apis : List apiResource) (acc : List ObjectRecord × Option String)
    (hok : ∀ a ∈ apis, a.r.namespaced = true → ∃ v, fetch a = .ok v) :
    (getAllResourcesAux fetch apis acc).2 = acc.2 ∧
    (getAllResourcesAux fetch apis acc).1.length = acc.1.length +
      ((apis.filter (fun a => a.r.namespaced)).map
        (fun a => ((fetch a).toOption.getD []).length)).sum := by
  induction apis generalizing acc with
  | nil => simp [getAllResourcesAux]
  | cons api rest ih =>
    rw [getAllResourcesAux]
    cases hns : api.r.namespaced
    · have hacc : fleetStep fetch acc api = acc := by
        unfold fleetStep
        rw [hns]
        rfl
      rw [hacc]
      have hrec := ih acc (fun a ha h => hok a (List.mem_cons_of_mem _ ha) h)
      refine ⟨hrec.1, ?_⟩
      rw [hrec.2, List.filter_cons]
      simp [hns]
    · rcases hok api (List.mem_cons_self _ _) hns with ⟨v, hv⟩
      have hacc : fleetStep fetch acc api = (acc.1 ++ v, acc.2) := by
        unfold fleetStep
        rw [hns, hv]
        rfl
      rw [hacc]
      have hrec := ih (acc.1 ++ v, acc.2) (fun a ha h => hok a (List.mem_cons_of_mem _ ha) h)
      refine ⟨hrec.1, ?_⟩
      rw [hrec.2, List.filter_cons]
      simp [hns, hv, Except.toOption]
      omega

theorem fetchPhase_eq_ok (fetch : apiResource → Except String (List ObjectRecord))
    (apis : List apiResource) (h : (getAllResources fetch apis).2 = none) :
    fetchPhase fetch apis = .ok (getAllResources fetch apis).1 := by
  unfold fetchPhase
  rcases hx : getAllResources fetch apis with ⟨out, err⟩
  rw [hx] at h
  cases h
  rfl

theorem fetchPhase_eq_error (fetch : apiResource → Except String (List ObjectRecord))
    (apis : List apiResource) (e : String) (h : (getAllResources fetch apis).2 = some e) :
    fetchPhase fetch apis = .error ("error while querying api objects: " ++ e) := by
  unfold fetchPhase
  rcases hx : getAllResources fetch apis with ⟨out, err⟩
  rw [hx] at h
  cases h
  rfl

/-- Claim C3: the fleet fetcher fetches only namespace-scoped types; when
every namespaced fetch succeeds the merged count is the sum of the per-type
counts and the run proceeds with the items; when some namespaced fetch
fails the shared error is set and the run fails, discarding the items
appended by still-succeeding fetches. -/
theorem getAllResources_spec (fetch : apiResource → Except String (List ObjectRecord))
    (apis : List apiResource) :
    getAllResources fetch apis =
      getAllResources fetch (apis.filter (fun a => a.r.namespaced)) ∧
    ((∀ a ∈ apis, a.r.namespaced = true → (fetch a).toOption.isSome = true) →
      (getAllResources fetch apis).2 = none ∧
      (getAllResources fetch apis).1.length =
        ((apis.filter (fun a => a.r.namespaced)).map
          (fun a => ((fetch a).toOption.getD []).length)).sum ∧
      fetchPhase fetch apis = .ok (getAllResources fetch apis).1) ∧
    ((∃ a ∈ apis, a.r.namespaced = true ∧ (fetch a).toOption = none) →
      ∃ e2, (getAllResources fetch apis).2 = some e2 ∧
        fetchPhase fetch apis = .error ("error while querying api objects: " ++ e2)) := by
  refine ⟨getAllResourcesAux_filter fetch apis ([], none), ?_, ?_⟩
  · intro hok
    have h := getAllResourcesAux_all_ok fetch apis ([], none)
      (fun a ha hns => exists_ok_of_toOption_isSome (fetch a) (hok a ha hns))
    exact ⟨h.1, by simpa using h.2, fetchPhase_eq_ok fetch apis h.1⟩
  · intro hfail
    rcases hfail with ⟨a, ha, hns, hnone⟩
    rcases exists_error_of_toOption_none (fetch a) hnone with ⟨e, he⟩
    have hs := getAllResourcesAux_err_of_fail fetch apis ([], none) ⟨a, ha, hns, e, he⟩
    rcases Option.isSome_iff_exists.1 hs with ⟨e2, he2⟩
    exact ⟨e2, he2, fetchPhase_eq_error fetch apis e2 he2⟩

/-- Witness for C3 over `fleetApis`: with `okFetch` no error, 3 records
(2 + 1 from the namespaced types, none from the cluster-scoped one); with
`badFetch` the call fails. -/
theorem getAllResources_spec_witness :
    (getAllResources okFetch fleetApis).2 = none ∧
    (getAllResources okFetch fleetApis).1.length = 3 ∧
    fetchPhase okFetch fleetApis = .ok (getAllResources okFetch fleetApis).1 ∧
    (∃ e2, (getAllResources badFetch fleetApis).2 = some e2 ∧
      fetchPhase badFetch fleetApis =
        .error ("error while querying api objects: " ++ e2)) := by
  have hok := (getAllResources_spec okFetch fleetApis).2.1 (by decide)
  have hbad := (getAllResources_spec badFetch fleetApis).2.2 (by decide)
  exact ⟨hok.1, by rw [hok.2.1]; decide, hok.2.2, hbad⟩

theorem queryAPIAux_chain (listF : Nat → String → Except String (List ObjectRecord × String))
    (api : apiResource) (pages : List (List ObjectRecord × String)) :
    ∀ (c : String) (acc : List ObjectRecord) (fuel : Nat),
    ChainFrom listF c pages → pages.length ≤ fuel →
    queryAPIAux listF api fuel c acc = some (.ok (acc ++ (pages.map Prod.fst).flatten)) := by
  induction pages with
  | nil =>
    intro c acc fuel h hlen
    exact h.elim
  | cons p rest ih =>
    intro c acc fuel hchain hlen
    rcases p with ⟨items, cont⟩
    cases rest with
    | nil =>
      have hc : listF pageLimit c = .ok (items, cont) ∧ cont = "" := hchain
      obtain ⟨hresp, hcont⟩ := hc
      subst hcont
      cases fuel with
      | zero => simp at hlen
      | succ f => simp [queryAPIAux, hresp]
    | cons p2 rest2 =>
      have hc : listF pageLimit c = .ok (items, cont) ∧ cont ≠ "" ∧
          ChainFrom listF cont (p2 :: rest2) := hchain
      cases fuel with
      | zero => simp at hlen
      | succ f =>
        simp only [queryAPIAux, hc.1, if_neg hc.2.1]
        rw [ih cont (acc ++ items) f hc.2.2 (by simp at hlen ⊢; omega)]
        simp

theorem queryAPIAux_reach_error
    (listF : Nat → String → Except String (List ObjectRecord × String))
    (api : apiResource) (pages : List (List ObjectRecord × String)) :
    ∀ (c c2 e : String) (acc : List ObjectRecord) (fuel : Nat),
    ReachesCursor listF c pages c2 → listF pageLimit c2 = .error e →
    pages.length < fuel →
    queryAPIAux listF api fuel c acc = some (.error ("listing resources failed (" ++
      gvrString api.GroupVersionResource ++ "): " ++ e)) := by
  induction pages with
  | nil =>
    intro c c2 e acc fuel hreach herr hlen
    have hc : c = c2 := hreach
    subst hc
    cases fuel with
    | zero => exact absurd hlen (Nat.not_lt_zero _)
    | succ f => simp [queryAPIAux, herr]
  | cons p rest ih =>
    intro c c2 e acc fuel hreach herr hlen
    rcases p with ⟨items, cont⟩
    have hc : listF pageLimit c = .ok (items, cont) ∧ cont ≠ "" ∧
        ReachesCursor listF cont rest c2 := hreach
    cases fuel with
    | zero => exact absurd hlen (Nat.not_lt_zero _)
    | succ f =>
      simp only [queryAPIAux, hc.1, if_neg hc.2.1]
      exact ih cont c2 e (acc ++ items) f hc.2.2 herr (by simp at hlen; omega)

/-- Claim C4: `queryAPI` pages with the fixed limit 250 from the empty
cursor, follows each continuation cursor, stops exactly on the empty
cursor, and returns the pages concatenated in request order; a failing page
yields the error wrapping the resource type and the transport error, with
earlier pages discarded. -/
theorem queryAPI_spec (listF : Nat → String → Except String (List ObjectRecord × String))
    (api : apiResource) (pages : List (List ObjectRecord × String)) (fuel : Nat)
    (c2 e : String) :
    pageLimit = 250 ∧
    (ChainFrom listF "" pages → pages.length ≤ fuel →
      queryAPI listF api fuel = some (.ok (pages.map Prod.fst).flatten)) ∧
    (ReachesCursor listF "" pages c2 → listF pageLimit c2 = .error e →
      pages.length < fuel →
      queryAPI listF api fuel = some (.error ("listing resources failed (" ++
        gvrString api.GroupVersionResource ++ "): " ++ e))) := by
  refine ⟨rfl, ?_, ?_⟩
  · intro hchain hlen
    have h := queryAPIAux_chain listF api pages "" [] fuel hchain hlen
    simpa [queryAPI] using h
  · intro hreach herr hlen
    exact queryAPIAux_reach_error listF api pages "" c2 e [] fuel hreach herr hlen

/-- Witness for C4: the three-page server `"" → C1 → C2 → ""` yields the
three pages concatenated in order; the failing server yields the wrapped
transport error. -/
theorem queryAPI_spec_witness :
    queryAPI server3 nsFoo 3 = some (.ok (pageA ++ pageB ++ pageC)) ∧
    queryAPI serverBad nsFoo 3 = some (.error ("listing resources failed (" ++
      gvrString nsFoo.GroupVersionResource ++ "): " ++ "transport")) := by
  constructor
  · have h := (queryAPI_spec server3 nsFoo [(pageA, "C1"), (pageB, "C2"), (pageC, "")]
      3 "" "").2.1 ⟨rfl, by decide, rfl, by decide, rfl, rfl⟩ (by decide)
    rw [h]
    simp [List.append_assoc]
  · exact (queryAPI_spec serverBad nsFoo [(pageA, "C1")] 3 "C1" "transport").2.2
      ⟨rfl, by decide, rfl⟩ rfl (by decide)
